import Mathlib

/-!
# cam_stream: serial JPEG stream of an ESP32 camera

Shallow embedding of `serial_stream/cam_stream/main/main.c`: the framing
constants `DELIM` and `_HEADER`, the C library calls the loop relies on
(`snprintf` with `%d`, `strlen`), and the task `cam_stream_task` as a state
passing loop over an explicit world (camera results, UART return values).
Bytes are natural numbers; a C `size_t`/`int` is 32 bits wide on the target.
-/

namespace CamStream

/-! ## Bytes and C strings -/

/-- ASCII bytes of a C string literal (without the terminating NUL). -/
def bytes (s : String) : List Nat := s.toList.map Char.toNat

/-- The delimiter `#define DELIM "\n12345678900STREAM00987654321\n"` (main.c:104). -/
def DELIM : List Nat := bytes "\n12345678900STREAM00987654321\n"

/-- The format string
`_HEADER = DELIM "Content-Type: image/jpeg\r\nContent-Length: %d\r\n\r\n" DELIM`
(main.c:105): adjacent string literals are concatenated by the compiler. -/
def _HEADER : List Nat :=
  DELIM ++ bytes "Content-Type: image/jpeg\r\nContent-Length: %d\r\n\r\n" ++ DELIM

/-- Size of a pointer, `sizeof(char*)`, on the 32-bit target. -/
def sizeof_char_ptr : Nat := 4

/-- Capacity `sizeof(info)` of `char* info[200]` (main.c:238): 200 pointers. -/
def sizeof_info : Nat := 200 * sizeof_char_ptr

/-- C `strlen`: number of bytes before the first NUL. -/
def strlen (s : List Nat) : Nat := (s.takeWhile (fun b => b != 0)).length

/-! ## `snprintf` with the `%d` conversion -/

/-- Decimal digits of `n`, most significant first, accumulated in `acc`. -/
def decimalAux : Nat → Nat → List Nat → List Nat
  | 0, _, acc => acc
  | fuel + 1, n, acc =>
    if n / 10 = 0 then (48 + n % 10) :: acc
    else decimalAux fuel (n / 10) ((48 + n % 10) :: acc)

/-- ASCII decimal representation of a natural number. -/
def decimal (n : Nat) : List Nat := decimalAux (n + 1) n []

/-- The value a 32-bit `size_t` argument has when `%d` reads it as `int`. -/
def toInt32 (n : Nat) : Int :=
  if n % 2 ^ 32 < 2 ^ 31 then ((n % 2 ^ 32 : Nat) : Int)
  else ((n % 2 ^ 32 : Nat) : Int) - 2 ^ 32

/-- Output of the `%d` conversion: a minus sign for negative values, then the
decimal digits of the magnitude. -/
def fmt_d (i : Int) : List Nat :=
  if i < 0 then 45 :: decimal i.natAbs else decimal i.natAbs

/-- Expansion of a format string: `%d` (bytes 37, 100) consumes the next
argument, every other byte is copied. -/
def format : List Nat → List Int → List Nat
  | [], _ => []
  | 37 :: 100 :: rest, a :: args => fmt_d a ++ format rest args
  | c :: rest, args => c :: format rest args

/-- The call `snprintf(buf, size, fmt, args)`: at most `size - 1` bytes of the expansion
are stored, followed by a NUL; the rest of the buffer keeps its old content. -/
def snprintf (buf : List Nat) (size : Nat) (fmt : List Nat) (args : List Int) : List Nat :=
  if size = 0 then buf
  else
    let out := (format fmt args).take (size - 1)
    out ++ [0] ++ buf.drop (out.length + 1)

/-! ## Camera frames, events and the world -/

/-- The fields of `camera_fb_t` the task reads: `buf`, here the bytes found at
the pointer, and `len`. A frame delivered by the driver has `len` bytes at
`buf`; a write of `len` bytes from `buf` submits `buf.take len`. -/
structure camera_fb_t where
  buf : List Nat
  len : Nat
  deriving DecidableEq

/-- A frame buffer holding exactly the payload `P`. -/
def frame_of (P : List Nat) : camera_fb_t := { buf := P, len := P.length }

/-- Calls the task makes to its collaborators, in program order. A UART write
records the bytes submitted and the value the driver returned. -/
inductive Event where
  | esp_camera_fb_get (frame : Option camera_fb_t)
  | ESP_LOGE (msg : String)
  | vTaskDelay (ticks : Nat)
  | uart_write_bytes (data : List Nat) (ret : Int)
  | esp_camera_fb_return (frame : camera_fb_t)
  deriving DecidableEq

/-- What the task cannot control: the tick period of the scheduler, the result
of each `esp_camera_fb_get` call and the return value of each
`uart_write_bytes` call (negative on failure), indexed by call number. -/
structure World where
  portTICK_PERIOD_MS : Nat
  camera : Nat → Option camera_fb_t
  uart : Nat → Int

/-- Local state of the task: the `info` buffer and the number of camera and
UART calls made so far. -/
structure State where
  info : List Nat
  gets : Nat
  writes : Nat
  deriving DecidableEq

/-- How a loop body finishes. -/
inductive Ctl where
  | normal
  | continue_
  | break_
  | return_
  deriving DecidableEq

/-- Whether a loop is still iterating or has been left. -/
inductive Status where
  | running
  | exited
  deriving DecidableEq

/-! ## The task -/

/-- Body of the `for(;;)` loop of `cam_stream_task` (main.c:242-259). -/
def loop_body (w : World) (s : State) : Ctl × State × List Event :=
  let frame := w.camera s.gets
  match frame with
  | none =>
    (Ctl.continue_, { s with gets := s.gets + 1 },
      [Event.esp_camera_fb_get none,
       Event.ESP_LOGE "failed to capture image",
       Event.vTaskDelay (1000 / w.portTICK_PERIOD_MS)])
  | some f =>
    let info := snprintf s.info sizeof_info _HEADER [toInt32 f.len]
    (Ctl.normal, { info := info, gets := s.gets + 1, writes := s.writes + 3 },
      [Event.esp_camera_fb_get (some f),
       Event.uart_write_bytes (info.take (strlen info)) (w.uart s.writes),
       Event.uart_write_bytes (f.buf.take f.len) (w.uart (s.writes + 1)),
       Event.uart_write_bytes ((DELIM ++ [0]).take (strlen (DELIM ++ [0])))
         (w.uart (s.writes + 2)),
       Event.esp_camera_fb_return f])

/-- The statement `for(;;) body` run for at most `fuel` iterations: only `break` or `return`
in the body leaves the loop. -/
def for_ever (body : State → Ctl × State × List Event) :
    Nat → State → Status × State × List Event
  | 0, s => (Status.running, s, [])
  | fuel + 1, s =>
    match body s with
    | (Ctl.break_, s1, ev) => (Status.exited, s1, ev)
    | (Ctl.return_, s1, ev) => (Status.exited, s1, ev)
    | (_, s1, ev) =>
      match for_ever body fuel s1 with
      | (st, s2, ev2) => (st, s2, ev ++ ev2)

/-- The task `cam_stream_task` (main.c:235-261) observed for `fuel` iterations, started
with arbitrary content `info0` in the uninitialised `info` buffer. -/
def cam_stream_task (w : World) (fuel : Nat) (info0 : List Nat) :
    Status × State × List Event :=
  for_ever (loop_body w) fuel { info := info0, gets := 0, writes := 0 }

/-- Bytes submitted to the transport by a sequence of events, in order. -/
def wire : List Event → List Nat
  | [] => []
  | Event.uart_write_bytes data _ :: evs => data ++ wire evs
  | _ :: evs => wire evs


/-! ## Specification-side notions -/

/-- Header text written between the first two delimiters for a `%d` argument. -/
def header_text (a : Int) : List Nat :=
  bytes "Content-Type: image/jpeg\r\nContent-Length: " ++ fmt_d a ++ bytes "\r\n\r\n"

/-- Value of a string of ASCII decimal digits. -/
def parse_decimal (ds : List Nat) : Nat := ds.foldl (fun a c => 10 * a + (c - 48)) 0

/-- The envelope of a frame: delimiter, header text, delimiter, the `len`
payload bytes at `buf`, delimiter. -/
def envelope (f : camera_fb_t) : List Nat :=
  DELIM ++ header_text (toInt32 f.len) ++ DELIM ++ f.buf.take f.len ++ DELIM

/-- The pattern `pat` matches `s` at byte offset `i`. -/
def occurs_at (pat s : List Nat) (i : Nat) : Prop := pat <+: s.drop i

instance (pat s : List Nat) (i : Nat) : Decidable (occurs_at pat s i) :=
  inferInstanceAs (Decidable (pat <+: s.drop i))

/-- Offset of the first match of `pat` in `s`, scanning from the left. -/
def first_occurrence (pat : List Nat) : List Nat → Option Nat
  | [] => if pat = [] then some 0 else none
  | c :: s =>
    if pat <+: c :: s then some 0
    else (first_occurrence pat s).map (fun k => k + 1)

/-- Frame ownership along a trace: the state is the frame currently borrowed
from the camera, `none` as result is a violation. An acquisition is allowed
only while nothing is borrowed, a release only of the borrowed frame. -/
def own_step : Option camera_fb_t → Event → Option (Option camera_fb_t)
  | none, Event.esp_camera_fb_get r => some r
  | some _, Event.esp_camera_fb_get _ => none
  | some f, Event.esp_camera_fb_return g => if f = g then some none else none
  | none, Event.esp_camera_fb_return _ => none
  | held, _ => some held

/-- Ownership check of a whole trace, started with `held`. -/
def own_run : Option camera_fb_t → List Event → Option (Option camera_fb_t)
  | held, [] => some held
  | held, e :: es =>
    match own_step held e with
    | none => none
    | some held1 => own_run held1 es

/-- Number of events of a trace satisfying `p`. -/
def count_events (p : Event → Bool) (evs : List Event) : Nat := (evs.filter p).length

/-- An event is a non-empty acquisition. -/
def is_acquire : Event → Bool
  | Event.esp_camera_fb_get (some _) => true
  | _ => false

/-- An event is a release. -/
def is_release : Event → Bool
  | Event.esp_camera_fb_return _ => true
  | _ => false

/-- An event is a retry wait. -/
def is_delay : Event → Bool
  | Event.vTaskDelay _ => true
  | _ => false

/-- The events of one failed acquisition: the call, the log line, the wait. -/
def retry_events (w : World) : List Event :=
  [Event.esp_camera_fb_get none,
   Event.ESP_LOGE "failed to capture image",
   Event.vTaskDelay (1000 / w.portTICK_PERIOD_MS)]

/-- The events of one sent frame, `k` UART calls having been made before. -/
def send_events (w : World) (k : Nat) (f : camera_fb_t) : List Event :=
  [Event.esp_camera_fb_get (some f),
   Event.uart_write_bytes (DELIM ++ header_text (toInt32 f.len) ++ DELIM) (w.uart k),
   Event.uart_write_bytes (f.buf.take f.len) (w.uart (k + 1)),
   Event.uart_write_bytes DELIM (w.uart (k + 2)),
   Event.esp_camera_fb_return f]

/-- The same world with other UART return values. -/
def with_uart (w : World) (u : Nat → Int) : World := { w with uart := u }

/-- An event without the value the driver returned. -/
def forget_ret : Event → Event
  | Event.uart_write_bytes data _ => Event.uart_write_bytes data 0
  | e => e

/-- No write is issued after a failed write of the same frame: `failed` tells
whether a write since the last acquisition returned a negative value. -/
def stops_after_failure : Bool → List Event → Bool
  | _, [] => true
  | _, Event.esp_camera_fb_get _ :: es => stops_after_failure false es
  | failed, Event.uart_write_bytes _ ret :: es =>
    !failed && stops_after_failure (decide (ret < 0)) es
  | failed, _ :: es => stops_after_failure failed es

/-- A world whose camera always delivers the frame `f`, whose writes all
return `ret`, with a 10 ms tick. -/
def steady_world (f : camera_fb_t) (ret : Int) : World :=
  { portTICK_PERIOD_MS := 10, camera := fun _ => some f, uart := fun _ => ret }

/-- A world whose camera is empty for the first `K` calls and then delivers
`f`, with a 10 ms tick and successful writes. -/
def late_world (K : Nat) (f : camera_fb_t) : World :=
  { portTICK_PERIOD_MS := 10, camera := fun k => if k < K then none else some f,
    uart := fun _ => 0 }

/-- The state of the task before its first iteration, `info` uninitialised. -/
def initial_state (info0 : List Nat) : State := { info := info0, gets := 0, writes := 0 }

/-- A world whose camera delivers `f1` on the first call and `f2` afterwards,
with a 10 ms tick and successful writes. -/
def two_frame_world (f1 f2 : camera_fb_t) : World :=
  { portTICK_PERIOD_MS := 10, camera := fun k => if k = 0 then some f1 else some f2,
    uart := fun _ => 0 }

/-- Two adjacent bytes are not the first two bytes of `DELIM` (line feed, `1`). -/
def no_start (a b : Nat) : Prop := ¬ (a = 10 ∧ b = 49)

instance : DecidableRel no_start := fun a b => inferInstanceAs (Decidable (¬ (a = 10 ∧ b = 49)))

/-- Boolean check that no two adjacent bytes of a list are a line feed
followed by `1`. -/
def no_start_chain : List Nat → Bool
  | a :: b :: t => decide (no_start a b) && no_start_chain (b :: t)
  | _ => true

/-! ## The consumer side -/

theorem DELIM_bytes : DELIM =
    [10, 49, 50, 51, 52, 53, 54, 55, 56, 57, 48, 48, 83, 84, 82, 69, 65, 77,
     48, 48, 57, 56, 55, 54, 53, 52, 51, 50, 49, 10] := by decide

theorem DELIM_length : DELIM.length = 30 := by decide

theorem format_HEADER (a : Int) :
    format _HEADER [a] = DELIM ++ header_text a ++ DELIM := by
  have h : format _HEADER [a] = DELIM ++ (bytes "Content-Type: image/jpeg\r\nContent-Length: "
      ++ (fmt_d a ++ (bytes "\r\n\r\n" ++ DELIM))) := rfl
  rw [h, header_text]
  simp only [List.append_assoc]

/-! ## Decimal digits -/

theorem decimalAux_eq (fuel : Nat) : ∀ (n : Nat) (acc : List Nat), n < fuel → 0 < n →
    decimalAux fuel n acc = ((Nat.digits 10 n).reverse.map (fun d => 48 + d)) ++ acc := by
  induction fuel with
  | zero => intro n acc h; omega
  | succ fuel ih =>
    intro n acc h hn
    have hd : Nat.digits 10 n = (n % 10) :: Nat.digits 10 (n / 10) :=
      Nat.digits_def' (by norm_num) hn
    by_cases h10 : n / 10 = 0
    · simp [decimalAux, h10, hd]
    · have hlt : n / 10 < fuel := by omega
      have hpos : 0 < n / 10 := by omega
      simp [decimalAux, h10, hd, ih (n / 10) _ hlt hpos]

theorem decimal_zero : decimal 0 = [48] := by decide

theorem decimal_eq_digits (n : Nat) (hn : 0 < n) :
    decimal n = (Nat.digits 10 n).reverse.map (fun d => 48 + d) := by
  have h := decimalAux_eq (n + 1) n [] (by omega) hn
  simpa [decimal] using h

theorem decimal_mem (n c : Nat) (h : c ∈ decimal n) : 48 ≤ c ∧ c ≤ 57 := by
  rcases Nat.eq_zero_or_pos n with h0 | hn
  · subst h0; rw [decimal_zero] at h; simp at h; omega
  · rw [decimal_eq_digits n hn] at h
    simp only [List.mem_map, List.mem_reverse] at h
    obtain ⟨d, hd, rfl⟩ := h
    have := Nat.digits_lt_base (by norm_num : 1 < 10) hd
    omega

theorem decimal_ne_nil (n : Nat) : decimal n ≠ [] := by
  rcases Nat.eq_zero_or_pos n with h0 | hn
  · subst h0; rw [decimal_zero]; simp
  · rw [decimal_eq_digits n hn]
    simp [Nat.digits_ne_nil_iff_ne_zero]
    omega

theorem decimal_length_le (n k : Nat) (hk : 0 < k) (h : n < 10 ^ k) :
    (decimal n).length ≤ k := by
  rcases Nat.eq_zero_or_pos n with h0 | hn
  · subst h0; rw [decimal_zero]; simpa using hk
  · rw [decimal_eq_digits n hn]
    simp only [List.length_map, List.length_reverse]
    have h1 := Nat.base_pow_length_digits_le 10 n (by norm_num) (by omega)
    have h2 : 10 ^ (Nat.digits 10 n).length < 10 ^ (k + 1) := by
      rw [pow_succ]; omega
    have := (Nat.pow_lt_pow_iff_right (by norm_num : 1 < 10)).mp h2
    omega

theorem parse_decimal_decimal (n : Nat) : parse_decimal (decimal n) = n := by
  rcases Nat.eq_zero_or_pos n with h0 | hn
  · subst h0; decide
  · rw [decimal_eq_digits n hn]
    have h := Nat.ofDigits_digits 10 n
    rw [Nat.ofDigits_eq_foldr] at h
    simp only [parse_decimal, List.foldl_map, List.foldl_reverse]
    simpa [mul_comm, add_comm] using h

theorem decimal_head_ne_zero (n : Nat) (hn : 0 < n) : (decimal n).head? ≠ some 48 := by
  rw [decimal_eq_digits n hn]
  have hne : Nat.digits 10 n ≠ [] := Nat.digits_ne_nil_iff_ne_zero.mpr (by omega)
  have h := Nat.getLast_digit_ne_zero 10 (by omega : n ≠ 0)
  rw [List.head?_map, List.head?_reverse, List.getLast?_eq_getLast _ hne]
  simp
  omega

/-! ## The `%d` conversion of a 32-bit length -/

theorem fmt_d_mem (i : Int) (c : Nat) (h : c ∈ fmt_d i) : c = 45 ∨ (48 ≤ c ∧ c ≤ 57) := by
  unfold fmt_d at h
  split at h
  · rcases List.mem_cons.mp h with h | h
    · exact Or.inl h
    · exact Or.inr (decimal_mem _ _ h)
  · exact Or.inr (decimal_mem _ _ h)

theorem toInt32_natAbs_le (n : Nat) : (toInt32 n).natAbs ≤ 2 ^ 31 := by
  unfold toInt32
  split <;> omega

theorem toInt32_of_lt (n : Nat) (h : n < 2 ^ 31) : toInt32 n = (n : Int) := by
  unfold toInt32
  have h1 : n % 2 ^ 32 = n := Nat.mod_eq_of_lt (by omega)
  rw [h1, if_pos h]

theorem fmt_d_of_nat (n : Nat) : fmt_d (n : Int) = decimal n := by
  unfold fmt_d
  rw [if_neg (by omega)]
  simp

theorem fmt_d_toInt32_of_lt (n : Nat) (h : n < 2 ^ 31) : fmt_d (toInt32 n) = decimal n := by
  rw [toInt32_of_lt n h, fmt_d_of_nat]

theorem fmt_d_toInt32_length (n : Nat) : (fmt_d (toInt32 n)).length ≤ 11 := by
  have hb := toInt32_natAbs_le n
  have hl := decimal_length_le (toInt32 n).natAbs 10 (by norm_num) (by omega)
  unfold fmt_d
  split
  · simp only [List.length_cons]; omega
  · omega

theorem header_text_length (a : Int) : (header_text a).length = 46 + (fmt_d a).length := by
  have h1 : (bytes "Content-Type: image/jpeg\r\nContent-Length: ").length = 42 := by decide
  have h2 : (bytes "\r\n\r\n").length = 4 := by decide
  simp only [header_text, List.length_append, h1, h2]
  omega

theorem header_text_no_nul (a : Int) : ∀ c ∈ header_text a, c ≠ 0 := by
  intro c hc
  simp only [header_text, List.mem_append] at hc
  rcases hc with (hc | hc) | hc
  · revert c; decide
  · have := fmt_d_mem a c hc; omega
  · revert c; decide

theorem format_HEADER_no_nul (a : Int) : ∀ c ∈ format _HEADER [a], c ≠ 0 := by
  intro c hc
  rw [format_HEADER] at hc
  simp only [List.mem_append] at hc
  rcases hc with (hc | hc) | hc
  · revert c; decide
  · exact header_text_no_nul a c hc
  · revert c; decide

theorem format_HEADER_length (a : Int) :
    (format _HEADER [a]).length = 106 + (fmt_d a).length := by
  rw [format_HEADER]
  simp only [List.length_append, DELIM_length, header_text_length]
  omega

/-! ## `strlen` and `snprintf` -/

theorem strlen_append_nul (l r : List Nat) (h : ∀ c ∈ l, c ≠ 0) :
    strlen (l ++ 0 :: r) = l.length := by
  induction l with
  | nil => simp [strlen]
  | cons x xs ih =>
    have hx : x ≠ 0 := h x (List.mem_cons_self _ _)
    have hxs : ∀ c ∈ xs, c ≠ 0 := fun c hc => h c (List.mem_cons_of_mem _ hc)
    have := ih hxs
    simp only [strlen] at this ⊢
    simp [List.takeWhile_cons, hx, this]

theorem snprintf_fits (buf : List Nat) (size : Nat) (fmt : List Nat) (args : List Int)
    (h : (format fmt args).length < size) :
    snprintf buf size fmt args =
      format fmt args ++ 0 :: buf.drop ((format fmt args).length + 1) := by
  unfold snprintf
  rw [if_neg (by omega)]
  have ht : (format fmt args).take (size - 1) = format fmt args :=
    List.take_of_length_le (by omega)
  simp [ht]

/-- The header string as the first write sees it: for every 32-bit length and
every previous content of `info`, `strlen` covers the whole expansion. -/
theorem info_written (buf : List Nat) (n : Nat) :
    (snprintf buf sizeof_info _HEADER [toInt32 n]).take
        (strlen (snprintf buf sizeof_info _HEADER [toInt32 n])) =
      DELIM ++ header_text (toInt32 n) ++ DELIM := by
  have hlen := format_HEADER_length (toInt32 n)
  have hd := fmt_d_toInt32_length n
  have hsz : sizeof_info = 800 := by decide
  rw [snprintf_fits _ _ _ _ (by rw [hsz]; omega),
    strlen_append_nul _ _ (format_HEADER_no_nul _), List.take_left, format_HEADER]

theorem delim_written : (DELIM ++ [0]).take (strlen (DELIM ++ [0])) = DELIM := by decide

/-! ## One iteration -/

theorem loop_body_none (w : World) (s : State) (h : w.camera s.gets = none) :
    loop_body w s =
      (Ctl.continue_, { s with gets := s.gets + 1 },
        [Event.esp_camera_fb_get none,
         Event.ESP_LOGE "failed to capture image",
         Event.vTaskDelay (1000 / w.portTICK_PERIOD_MS)]) := by
  simp [loop_body, h]

theorem loop_body_some (w : World) (s : State) (f : camera_fb_t)
    (h : w.camera s.gets = some f) :
    loop_body w s =
      (Ctl.normal,
        { info := snprintf s.info sizeof_info _HEADER [toInt32 f.len],
          gets := s.gets + 1, writes := s.writes + 3 },
        [Event.esp_camera_fb_get (some f),
         Event.uart_write_bytes (DELIM ++ header_text (toInt32 f.len) ++ DELIM) (w.uart s.writes),
         Event.uart_write_bytes (f.buf.take f.len) (w.uart (s.writes + 1)),
         Event.uart_write_bytes DELIM (w.uart (s.writes + 2)),
         Event.esp_camera_fb_return f]) := by
  simp only [loop_body, h, info_written, delim_written]

theorem wire_loop_body_some (w : World) (s : State) (f : camera_fb_t)
    (h : w.camera s.gets = some f) :
    wire (loop_body w s).2.2 = envelope f := by
  rw [loop_body_some w s f h]
  simp [wire, envelope]

theorem wire_append (xs ys : List Event) : wire (xs ++ ys) = wire xs ++ wire ys := by
  induction xs with
  | nil => rfl
  | cons e es ih => cases e <;> simp [wire, ih]

/-! ## The loop -/

theorem for_ever_loop_body_succ (w : World) (n : Nat) (s : State) :
    for_ever (loop_body w) (n + 1) s =
      ((for_ever (loop_body w) n (loop_body w s).2.1).1,
       (for_ever (loop_body w) n (loop_body w s).2.1).2.1,
       (loop_body w s).2.2 ++ (for_ever (loop_body w) n (loop_body w s).2.1).2.2) := by
  cases h : w.camera s.gets with
  | none => simp [for_ever, loop_body_none w s h]
  | some f => simp [for_ever, loop_body_some w s f h]

theorem for_ever_running (w : World) (n : Nat) :
    ∀ s, (for_ever (loop_body w) n s).1 = Status.running := by
  induction n with
  | zero => intro s; rfl
  | succ n ih => intro s; rw [for_ever_loop_body_succ]; exact ih _

theorem loop_body_gets (w : World) (s : State) : (loop_body w s).2.1.gets = s.gets + 1 := by
  cases h : w.camera s.gets with
  | none => rw [loop_body_none w s h]
  | some f => rw [loop_body_some w s f h]

theorem for_ever_gets (w : World) (n : Nat) :
    ∀ s, (for_ever (loop_body w) n s).2.1.gets = s.gets + n := by
  induction n with
  | zero => intro s; rfl
  | succ n ih =>
    intro s
    rw [for_ever_loop_body_succ]
    simp only [ih, loop_body_gets]
    omega

theorem for_ever_add (w : World) (a b : Nat) :
    ∀ s, for_ever (loop_body w) (a + b) s =
      ((for_ever (loop_body w) b (for_ever (loop_body w) a s).2.1).1,
       (for_ever (loop_body w) b (for_ever (loop_body w) a s).2.1).2.1,
       (for_ever (loop_body w) a s).2.2 ++
         (for_ever (loop_body w) b (for_ever (loop_body w) a s).2.1).2.2) := by
  induction a with
  | zero => intro s; simp [for_ever]
  | succ a ih =>
    intro s
    have e : a + 1 + b = (a + b) + 1 := by omega
    rw [e, for_ever_loop_body_succ, ih, for_ever_loop_body_succ]
    simp [List.append_assoc]

theorem for_ever_one (w : World) (s : State) :
    for_ever (loop_body w) 1 s = (Status.running, (loop_body w s).2.1, (loop_body w s).2.2) := by
  rw [for_ever_loop_body_succ]; simp [for_ever]

theorem loop_body_steady (f : camera_fb_t) (ret : Int) (s : State) :
    (loop_body (steady_world f ret) s).2.2 = send_events (steady_world f ret) s.writes f := by
  rw [loop_body_some _ s f rfl]
  rfl


/-! ## First occurrence of a pattern -/

theorem first_occurrence_at_start (pat s : List Nat) (h : pat <+: s) :
    first_occurrence pat s = some 0 := by
  cases s with
  | nil =>
    have : pat = [] := List.prefix_nil.mp h
    simp [first_occurrence, this]
  | cons c t => simp [first_occurrence, h]

theorem first_occurrence_eq (pat : List Nat) : ∀ (s : List Nat) (k : Nat),
    k ≤ s.length → pat <+: s.drop k → (∀ i, i < k → ¬ pat <+: s.drop i) →
    first_occurrence pat s = some k := by
  intro s
  induction s with
  | nil =>
    intro k hk hocc _
    have hk0 : k = 0 := by simpa using hk
    subst hk0
    exact first_occurrence_at_start pat [] hocc
  | cons c t ih =>
    intro k hk hocc hno
    cases k with
    | zero => exact first_occurrence_at_start pat (c :: t) hocc
    | succ k =>
      have h0 : ¬ pat <+: c :: t := by simpa using hno 0 (by omega)
      have hk' : k ≤ t.length := by simpa using hk
      have hocc' : pat <+: t.drop k := by simpa using hocc
      have hno' : ∀ i, i < k → ¬ pat <+: t.drop i := by
        intro i hi
        simpa using hno (i + 1) (by omega)
      simp [first_occurrence, h0, ih k hk' hocc' hno']

theorem delim_no_border : ∀ m, m < 29 → 0 < m → ¬ (DELIM.drop m <+: DELIM) := by decide

theorem delim_take_29 : DELIM.take 29 = bytes "\n12345678900STREAM00987654321" := by decide

theorem no_delim_before_end (P : List Nat) (h1 : ¬ DELIM <:+: P)
    (h2 : ¬ (bytes "\n12345678900STREAM00987654321" <:+ P)) :
    ∀ i, i < P.length → ¬ DELIM <+: (P ++ DELIM).drop i := by
  intro i hi hocc
  rw [List.drop_append_of_le_length (le_of_lt hi)] at hocc
  have hQ : (P.drop i).length = P.length - i := List.length_drop _ _
  have hsuf : P.drop i <:+ P := List.drop_suffix _ _
  by_cases hm : 30 ≤ P.length - i
  · have hpre : DELIM <+: P.drop i :=
      List.prefix_of_prefix_length_le hocc (List.prefix_append _ _)
        (by rw [DELIM_length, hQ]; exact hm)
    exact h1 (List.infix_iff_prefix_suffix.mpr ⟨_, hpre, hsuf⟩)
  · have hpre : P.drop i <+: DELIM :=
      List.prefix_of_prefix_length_le (List.prefix_append _ _) hocc
        (by rw [DELIM_length, hQ]; omega)
    obtain ⟨R, hR⟩ := hpre
    have hRd : DELIM.drop (P.length - i) = R := by
      rw [← hR]; exact List.drop_left' hQ
    have hQt : DELIM.take (P.length - i) = P.drop i := by
      rw [← hR]; exact List.take_left' hQ
    have hb : DELIM.drop (P.length - i) <+: DELIM := by
      rw [hRd]
      have h3 : P.drop i ++ R <+: P.drop i ++ DELIM := by rw [hR]; exact hocc
      exact (List.prefix_append_right_inj _).mp h3
    have hm29 : P.length - i = 29 := by
      by_contra hne
      exact delim_no_border (P.length - i) (by omega) (by omega) hb
    rw [hm29, delim_take_29] at hQt
    rw [hQt] at h2
    exact h2 hsuf


/-! ## No delimiter starts inside the first delimiter or the header text -/

theorem delim_prefix_two (l : List Nat) (h : DELIM <+: l) : ∃ t, l = 10 :: 49 :: t := by
  obtain ⟨r, rfl⟩ := h
  rw [DELIM_bytes]
  exact ⟨_, rfl⟩

theorem chain_of_no_lf (l : List Nat) (h : ∀ c ∈ l, c ≠ 10) : List.Chain' no_start l := by
  induction l with
  | nil => exact List.chain'_nil
  | cons x xs ih =>
    rw [List.chain'_cons']
    refine ⟨?_, ih (fun c hc => h c (List.mem_cons_of_mem _ hc))⟩
    intro y _ hxy
    exact h x (List.mem_cons_self _ _) hxy.1

theorem no_start_chain_sound : ∀ l : List Nat, no_start_chain l = true → List.Chain' no_start l
  | [], _ => List.chain'_nil
  | [_], _ => List.chain'_singleton _
  | a :: b :: t, h => by
    simp only [no_start_chain, Bool.and_eq_true, decide_eq_true_eq] at h
    exact List.chain'_cons.mpr ⟨h.1, no_start_chain_sound (b :: t) h.2⟩

theorem delim_cons_append (X : List Nat) : DELIM ++ X = 10 :: (DELIM.tail ++ X) := by
  have hD : 10 :: DELIM.tail = DELIM := by decide
  rw [← List.cons_append, hD]

theorem fmt_d_no_lf (a : Int) : ∀ c ∈ fmt_d a, c ≠ 10 := by
  intro c hc
  have := fmt_d_mem a c hc
  omega

theorem chain_header (a : Int) :
    List.Chain' no_start (DELIM.tail ++ header_text a ++ [10]) := by
  have e : DELIM.tail ++ header_text a ++ [10] =
      (DELIM.tail ++ bytes "Content-Type: image/jpeg\r\nContent-Length: ")
        ++ (fmt_d a ++ (bytes "\r\n\r\n" ++ [10])) := by
    simp [header_text, List.append_assoc]
  rw [e]
  refine List.chain'_append.mpr ⟨no_start_chain_sound _ (by decide),
    List.chain'_append.mpr ⟨chain_of_no_lf _ (fmt_d_no_lf a),
      no_start_chain_sound _ (by decide), ?_⟩, ?_⟩
  · intro x hx y hy hxy
    exact fmt_d_no_lf a x (List.mem_of_mem_getLast? hx) hxy.1
  · intro x hx y _ hxy
    have hx32 : x = 32 := by
      have hl : (DELIM.tail ++ bytes "Content-Type: image/jpeg\r\nContent-Length: ").getLast?
          = some 32 := by decide
      rw [hl] at hx
      simpa using hx.symm
    omega

theorem no_delim_inside (a : Int) (Z : List Nat) (i : Nat) (h0 : 0 < i)
    (hi : i < 30 + (header_text a).length) :
    ¬ DELIM <+: (DELIM ++ header_text a ++ (10 :: Z)).drop i := by
  intro hocc
  have hYlen : (DELIM.tail ++ header_text a ++ [10]).length = 30 + (header_text a).length := by
    have : DELIM.tail.length = 29 := by decide
    simp only [List.length_append, this, List.length_singleton]
    omega
  have e : DELIM ++ header_text a ++ (10 :: Z) =
      10 :: ((DELIM.tail ++ header_text a ++ [10]) ++ Z) := by
    rw [List.append_assoc, delim_cons_append]
    simp [List.append_assoc]
  obtain ⟨j, rfl⟩ : ∃ j, i = j + 1 := ⟨i - 1, by omega⟩
  rw [e, List.drop_succ_cons, List.drop_append_of_le_length (by omega)] at hocc
  have hch := (chain_header a).drop j
  have hl : 2 ≤ ((DELIM.tail ++ header_text a ++ [10]).drop j).length := by
    rw [List.length_drop]; omega
  generalize (DELIM.tail ++ header_text a ++ [10]).drop j = Y at hocc hch hl
  match Y, hl, hch, hocc with
  | x :: y :: t, _, hch, hocc =>
    obtain ⟨t', ht'⟩ := delim_prefix_two _ hocc
    simp only [List.cons_append, List.cons.injEq] at ht'
    exact (List.chain'_cons.mp hch).1 ⟨ht'.1, ht'.2.1⟩

theorem envelope_split (f : camera_fb_t) :
    envelope f = DELIM ++ header_text (toInt32 f.len)
      ++ (10 :: (DELIM.tail ++ f.buf.take f.len ++ DELIM)) := by
  simp only [envelope, List.append_assoc]
  rw [delim_cons_append (f.buf.take f.len ++ DELIM)]


/-! ## Reading an envelope back -/

theorem own_run_append (xs ys : List Event) : ∀ held,
    own_run held (xs ++ ys) = (own_run held xs).bind (fun h => own_run h ys) := by
  induction xs with
  | nil => intro held; rfl
  | cons e es ih =>
    intro held
    cases h : own_step held e with
    | none => simp [own_run, h]
    | some h1 => simp [own_run, h, ih]

theorem own_run_loop_body (w : World) (s : State) :
    own_run none (loop_body w s).2.2 = some none := by
  cases h : w.camera s.gets with
  | none => rw [loop_body_none w s h]; rfl
  | some f => rw [loop_body_some w s f h]; simp [own_run, own_step]

theorem own_run_for_ever (w : World) (n : Nat) :
    ∀ s, own_run none (for_ever (loop_body w) n s).2.2 = some none := by
  induction n with
  | zero => intro s; rfl
  | succ n ih =>
    intro s
    rw [for_ever_loop_body_succ]
    simp only [own_run_append, own_run_loop_body, Option.some_bind, ih]

theorem count_events_append (p : Event → Bool) (xs ys : List Event) :
    count_events p (xs ++ ys) = count_events p xs + count_events p ys := by
  simp [count_events]

theorem count_loop_body (w : World) (s : State) :
    count_events is_release (loop_body w s).2.2 = count_events is_acquire (loop_body w s).2.2 := by
  cases h : w.camera s.gets with
  | none => rw [loop_body_none w s h]; rfl
  | some f => rw [loop_body_some w s f h]; rfl

theorem count_for_ever (w : World) (n : Nat) :
    ∀ s, count_events is_release (for_ever (loop_body w) n s).2.2 =
      count_events is_acquire (for_ever (loop_body w) n s).2.2 := by
  induction n with
  | zero => intro s; rfl
  | succ n ih =>
    intro s
    rw [for_ever_loop_body_succ]
    simp only [count_events_append, count_loop_body, ih]

theorem for_ever_empties (w : World) (K : Nat) :
    ∀ s, (∀ k, k < K → w.camera (s.gets + k) = none) →
      for_ever (loop_body w) K s =
        (Status.running, { s with gets := s.gets + K },
          (List.replicate K (retry_events w)).flatten) := by
  induction K with
  | zero => intro s _; rfl
  | succ K ih =>
    intro s h
    have h0 : w.camera s.gets = none := by simpa using h 0 (by omega)
    have hs : ∀ k, k < K → w.camera (({ s with gets := s.gets + 1 } : State).gets + k) = none := by
      intro k hk
      have := h (k + 1) (by omega)
      simpa [Nat.add_assoc, Nat.add_comm 1 k] using this
    rw [for_ever_loop_body_succ, loop_body_none w s h0, ih _ hs]
    simp [List.replicate_succ, retry_events, Nat.add_assoc, Nat.add_comm 1 K]

/-! ## Claims about the task -/

/-- C1: for a frame holding a payload `P` of fewer than `2^31` bytes, one
iteration makes three writes whose bytes, concatenated, are `DELIM`, the text
`Content-Type: image/jpeg\r\nContent-Length: `, the decimal digits of the
length of `P` (at least one digit, digits only, value `len P`, no leading
zero, no sign), `\r\n\r\n`,
`DELIM`, the bytes of `P` unchanged, and `DELIM`; `DELIM` is the given 30-byte
string, and for ten bytes `0xAA` the length field reads `10`. -/
theorem iteration_emits_envelope (w : World) (s : State) (P : List Nat)
    (hn : P.length < 2 ^ 31) (hf : w.camera s.gets = some (frame_of P)) :
    (loop_body w s).2.2 =
      [Event.esp_camera_fb_get (some (frame_of P)),
       Event.uart_write_bytes
         (DELIM ++ bytes "Content-Type: image/jpeg\r\nContent-Length: " ++ decimal P.length
           ++ bytes "\r\n\r\n" ++ DELIM) (w.uart s.writes),
       Event.uart_write_bytes P (w.uart (s.writes + 1)),
       Event.uart_write_bytes DELIM (w.uart (s.writes + 2)),
       Event.esp_camera_fb_return (frame_of P)]
    ∧ wire (loop_body w s).2.2 =
        DELIM ++ bytes "Content-Type: image/jpeg\r\nContent-Length: " ++ decimal P.length
          ++ bytes "\r\n\r\n" ++ DELIM ++ P ++ DELIM
    ∧ DELIM = bytes "\n12345678900STREAM00987654321\n" ∧ DELIM.length = 30
    ∧ decimal P.length ≠ []
    ∧ (∀ c ∈ decimal P.length, 48 ≤ c ∧ c ≤ 57)
    ∧ parse_decimal (decimal P.length) = P.length
    ∧ (0 < P.length → (decimal P.length).head? ≠ some 48)
    ∧ (P = List.replicate 10 170 →
        wire (loop_body w s).2.2 =
          DELIM ++ bytes "Content-Type: image/jpeg\r\nContent-Length: 10\r\n\r\n" ++ DELIM
            ++ P ++ DELIM) := by
  have hev := loop_body_some w s (frame_of P) hf
  have hP : (frame_of P).buf.take (frame_of P).len = P := by simp [frame_of]
  have hd : fmt_d (toInt32 (frame_of P).len) = decimal P.length :=
    fmt_d_toInt32_of_lt P.length hn
  rw [hP] at hev
  simp only [header_text, hd] at hev
  have hw : wire (loop_body w s).2.2 =
      DELIM ++ bytes "Content-Type: image/jpeg\r\nContent-Length: " ++ decimal P.length
        ++ bytes "\r\n\r\n" ++ DELIM ++ P ++ DELIM := by
    rw [hev]; simp [wire]
  refine ⟨?_, hw, rfl, DELIM_length, decimal_ne_nil _, fun c hc => decimal_mem _ c hc,
    parse_decimal_decimal _, decimal_head_ne_zero _, ?_⟩
  · rw [hev]; simp
  · intro hP10
    rw [hw, hP10]
    have h10 : decimal (List.replicate 10 170).length = bytes "10" := by decide
    rw [h10]
    have hs : bytes "Content-Type: image/jpeg\r\nContent-Length: " ++ bytes "10"
        ++ bytes "\r\n\r\n" = bytes "Content-Type: image/jpeg\r\nContent-Length: 10\r\n\r\n" := by
      decide
    simp only [List.append_assoc] at hs ⊢
    rw [← hs]
    simp only [List.append_assoc]

/-- Witness for C1: ten bytes `0xAA` in the first iteration of the task. -/
theorem iteration_emits_envelope_witness :
    (List.replicate 10 170).length < 2 ^ 31
    ∧ (steady_world (frame_of (List.replicate 10 170)) 0).camera (initial_state []).gets
        = some (frame_of (List.replicate 10 170))
    ∧ wire (loop_body (steady_world (frame_of (List.replicate 10 170)) 0) (initial_state [])).2.2 =
        DELIM ++ bytes "Content-Type: image/jpeg\r\nContent-Length: 10\r\n\r\n" ++ DELIM
          ++ List.replicate 10 170 ++ DELIM :=
  ⟨by decide, rfl,
    (iteration_emits_envelope (steady_world (frame_of (List.replicate 10 170)) 0)
      (initial_state []) (List.replicate 10 170) (by decide) rfl).2.2.2.2.2.2.2.2 rfl⟩

/-- C5: in every trace of the task, whatever the UART calls return, a frame is
acquired only while none is held, every acquired frame is released exactly
once before the next acquisition, nothing is released after an empty
acquisition, and at the end of each iteration no frame is held. -/
theorem frame_released_exactly_once (w : World) (fuel : Nat) (info0 : List Nat) :
    own_run none (cam_stream_task w fuel info0).2.2 = some none
    ∧ (∀ pre, pre <+: (cam_stream_task w fuel info0).2.2 → own_run none pre ≠ none)
    ∧ count_events is_release (cam_stream_task w fuel info0).2.2 =
        count_events is_acquire (cam_stream_task w fuel info0).2.2 := by
  have h := own_run_for_ever w fuel { info := info0, gets := 0, writes := 0 }
  refine ⟨h, ?_, count_for_ever w fuel _⟩
  rintro pre ⟨rest, hrest⟩ hnone
  unfold cam_stream_task at hrest
  rw [← hrest, own_run_append, hnone] at h
  simp at h

/-- C6: if the first `K` acquisitions are empty and the next one delivers `F`,
the first `K + 1` iterations consist of `K` times (empty acquisition, log
line, wait of `1000 / portTICK_PERIOD_MS` ticks, which is one second when the
tick period divides 1000 ms) followed by the acquisition, the three writes and
the release of `F`; the bytes on the wire are the envelope of `F`, exactly `K`
waits were made, and the loop is still running after any number of iterations. -/
theorem retry_then_send (w : World) (K : Nat) (F : camera_fb_t) (info0 : List Nat)
    (hE : ∀ k, k < K → w.camera k = none) (hF : w.camera K = some F)
    (hd : w.portTICK_PERIOD_MS ∣ 1000) :
    (cam_stream_task w (K + 1) info0).2.2 =
        (List.replicate K
          [Event.esp_camera_fb_get none,
           Event.ESP_LOGE "failed to capture image",
           Event.vTaskDelay (1000 / w.portTICK_PERIOD_MS)]).flatten
        ++ send_events w 0 F
    ∧ 1000 / w.portTICK_PERIOD_MS * w.portTICK_PERIOD_MS = 1000
    ∧ wire (cam_stream_task w (K + 1) info0).2.2 = envelope F
    ∧ count_events is_delay (cam_stream_task w (K + 1) info0).2.2 = K
    ∧ (∀ fuel, (cam_stream_task w fuel info0).1 = Status.running
        ∧ (cam_stream_task w fuel info0).2.1.gets = fuel) := by
  have hrun := for_ever_empties w K { info := info0, gets := 0, writes := 0 }
    (by intro k hk; simpa using hE k hk)
  have hsome : w.camera ({ info := info0, gets := 0 + K, writes := 0 } : State).gets = some F := by
    simpa using hF
  have htrace : (cam_stream_task w (K + 1) info0).2.2 =
      (List.replicate K (retry_events w)).flatten ++ send_events w 0 F := by
    unfold cam_stream_task
    rw [for_ever_add, hrun, for_ever_one, loop_body_some w _ F hsome]
    simp [send_events]
  have hwire : ∀ n, wire (List.replicate n (retry_events w)).flatten = [] := by
    intro n; induction n with
    | zero => rfl
    | succ n ih =>
      have hr : wire (retry_events w) = [] := rfl
      simp [List.replicate_succ, wire_append, ih, hr]
  have hcount : ∀ n, count_events is_delay (List.replicate n (retry_events w)).flatten = n := by
    intro n; induction n with
    | zero => rfl
    | succ n ih =>
      have hr : count_events is_delay (retry_events w) = 1 := rfl
      rw [List.replicate_succ, List.flatten_cons, count_events_append, ih, hr]
      omega
  refine ⟨htrace, Nat.div_mul_cancel hd, ?_, ?_, ?_⟩
  · rw [htrace, wire_append, hwire]
    simp [send_events, wire, envelope]
  · rw [htrace, count_events_append, hcount]
    simp [send_events, count_events, is_delay]
  · intro fuel
    refine ⟨for_ever_running w fuel _, ?_⟩
    unfold cam_stream_task
    rw [for_ever_gets]
    simp

/-- Witness for C6: two empty acquisitions, then a three-byte frame. -/
theorem retry_then_send_witness :
    (∀ k, k < 2 → (late_world 2 (frame_of [255, 216, 255])).camera k = none)
    ∧ (late_world 2 (frame_of [255, 216, 255])).camera 2 = some (frame_of [255, 216, 255])
    ∧ (late_world 2 (frame_of [255, 216, 255])).portTICK_PERIOD_MS ∣ 1000
    ∧ (cam_stream_task (late_world 2 (frame_of [255, 216, 255])) 3 []).2.2 =
        [Event.esp_camera_fb_get none, Event.ESP_LOGE "failed to capture image",
         Event.vTaskDelay 100,
         Event.esp_camera_fb_get none, Event.ESP_LOGE "failed to capture image",
         Event.vTaskDelay 100]
        ++ send_events (late_world 2 (frame_of [255, 216, 255])) 0 (frame_of [255, 216, 255]) :=
  ⟨by decide, rfl, by decide,
    (retry_then_send (late_world 2 (frame_of [255, 216, 255])) 2 (frame_of [255, 216, 255]) []
      (by decide) rfl (by decide)).1⟩

/-- C7: when iterations `n` and `n + 1` both acquire a frame, the bytes on the
wire after them are the bytes sent before, then the whole envelope of the
first frame, then the whole envelope of the second, with nothing in between:
the first envelope ends with `DELIM` and the second begins with `DELIM`. -/
theorem consecutive_envelopes (w : World) (n : Nat) (info0 : List Nat) (F1 F2 : camera_fb_t)
    (h1 : w.camera n = some F1) (h2 : w.camera (n + 1) = some F2) :
    wire (cam_stream_task w (n + 2) info0).2.2 =
        wire (cam_stream_task w n info0).2.2 ++ envelope F1 ++ envelope F2
    ∧ envelope F1 =
        (DELIM ++ header_text (toInt32 F1.len) ++ DELIM ++ F1.buf.take F1.len) ++ DELIM
    ∧ envelope F2 =
        DELIM ++ (header_text (toInt32 F2.len) ++ DELIM ++ F2.buf.take F2.len ++ DELIM) := by
  refine ⟨?_, rfl, by simp [envelope]⟩
  unfold cam_stream_task
  have hg := for_ever_gets w n { info := info0, gets := 0, writes := 0 }
  simp only [Nat.zero_add] at hg
  have e1 : w.camera (for_ever (loop_body w) n { info := info0, gets := 0, writes := 0 }).2.1.gets
      = some F1 := by rw [hg]; exact h1
  have e2 : w.camera
      (loop_body w (for_ever (loop_body w) n { info := info0, gets := 0, writes := 0 }).2.1).2.1.gets
      = some F2 := by rw [loop_body_gets, hg]; exact h2
  rw [for_ever_add w n 2, for_ever_add w 1 1, for_ever_one, for_ever_one]
  simp only [wire_append, wire_loop_body_some _ _ _ e1, wire_loop_body_some _ _ _ e2,
    List.append_assoc]

/-- Witness for C7: a one-byte frame followed by a two-byte frame. -/
theorem consecutive_envelopes_witness :
    (two_frame_world (frame_of [7]) (frame_of [8, 9])).camera 0 = some (frame_of [7])
    ∧ (two_frame_world (frame_of [7]) (frame_of [8, 9])).camera (0 + 1) = some (frame_of [8, 9])
    ∧ wire (cam_stream_task (two_frame_world (frame_of [7]) (frame_of [8, 9])) (0 + 2) []).2.2 =
        wire (cam_stream_task (two_frame_world (frame_of [7]) (frame_of [8, 9])) 0 []).2.2
          ++ envelope (frame_of [7]) ++ envelope (frame_of [8, 9]) :=
  ⟨rfl, rfl,
    (consecutive_envelopes (two_frame_world (frame_of [7]) (frame_of [8, 9])) 0 []
      (frame_of [7]) (frame_of [8, 9]) rfl rfl).1⟩

/-! ## Header capacity, write failures, large lengths -/

/-- C10: for every value of `frame->len`, the expansion of `_HEADER` is 106
fixed bytes plus at most 11 bytes for `%d`, hence at most 117 bytes, less than
`sizeof(info)` (800, and any capacity of at least 200 does as well); it
contains no NUL, so whatever `info` held before, `strlen(info)` is the full
length of the expansion and the first write transmits it whole: delimiter,
header text, second delimiter. -/
theorem header_never_truncated (buf : List Nat) (n : Nat) :
    (format _HEADER [toInt32 n]).length = 106 + (fmt_d (toInt32 n)).length
    ∧ (fmt_d (toInt32 n)).length ≤ 11
    ∧ (format _HEADER [toInt32 n]).length ≤ 117
    ∧ 117 < sizeof_info ∧ 200 ≤ sizeof_info
    ∧ (∀ c ∈ format _HEADER [toInt32 n], c ≠ 0)
    ∧ strlen (snprintf buf sizeof_info _HEADER [toInt32 n]) = (format _HEADER [toInt32 n]).length
    ∧ (snprintf buf sizeof_info _HEADER [toInt32 n]).take
          (strlen (snprintf buf sizeof_info _HEADER [toInt32 n])) = format _HEADER [toInt32 n]
    ∧ format _HEADER [toInt32 n] = DELIM ++ header_text (toInt32 n) ++ DELIM
    ∧ (∀ size, 200 ≤ size →
        (snprintf buf size _HEADER [toInt32 n]).take
          (strlen (snprintf buf size _HEADER [toInt32 n])) = format _HEADER [toInt32 n])
    ∧ (∀ (w : World) (s : State) (f : camera_fb_t), w.camera s.gets = some f →
        (loop_body w s).2.2.get? 1 =
          some (Event.uart_write_bytes (format _HEADER [toInt32 f.len]) (w.uart s.writes))) := by
  have hlen := format_HEADER_length (toInt32 n)
  have hd := fmt_d_toInt32_length n
  have hsz : sizeof_info = 800 := by decide
  have hfit : (format _HEADER [toInt32 n]).length < sizeof_info := by rw [hsz]; omega
  refine ⟨hlen, hd, by omega, by rw [hsz]; omega, by rw [hsz]; omega,
    format_HEADER_no_nul _, ?_, ?_, format_HEADER _, ?_, ?_⟩
  · rw [snprintf_fits _ _ _ _ hfit, strlen_append_nul _ _ (format_HEADER_no_nul _)]
  · rw [info_written, format_HEADER]
  · intro size hsize
    rw [snprintf_fits _ _ _ _ (by omega), strlen_append_nul _ _ (format_HEADER_no_nul _),
      List.take_left]
  · intro w s f hf
    rw [loop_body_some w s f hf, format_HEADER]
    rfl

/-- C4 as stated fails: with every write returning -1 the writes of the
payload and of the trailing delimiter are still issued after the failed header
write, the frame is released, the loop keeps running, and the task ends up in
the same state as when every write succeeds. -/
theorem write_failure_ignored_example :
    (cam_stream_task (steady_world (frame_of [1, 2, 3]) (-1)) 1 []).2.2 =
        [Event.esp_camera_fb_get (some (frame_of [1, 2, 3])),
         Event.uart_write_bytes (DELIM ++ header_text 3 ++ DELIM) (-1),
         Event.uart_write_bytes [1, 2, 3] (-1),
         Event.uart_write_bytes DELIM (-1),
         Event.esp_camera_fb_return (frame_of [1, 2, 3])]
    ∧ stops_after_failure false
        (cam_stream_task (steady_world (frame_of [1, 2, 3]) (-1)) 1 []).2.2 = false
    ∧ (cam_stream_task (steady_world (frame_of [1, 2, 3]) (-1)) 1 []).1 = Status.running
    ∧ (cam_stream_task (steady_world (frame_of [1, 2, 3]) (-1)) 1 []).2.1 =
        (cam_stream_task (steady_world (frame_of [1, 2, 3]) 0) 1 []).2.1 := by
  have hev : (cam_stream_task (steady_world (frame_of [1, 2, 3]) (-1)) 1 []).2.2 =
      send_events (steady_world (frame_of [1, 2, 3]) (-1)) 0 (frame_of [1, 2, 3]) := by
    unfold cam_stream_task
    rw [for_ever_one]
    exact loop_body_steady _ _ _
  refine ⟨?_, ?_, for_ever_running _ _ _, ?_⟩
  · rw [hev]; rfl
  · rw [hev]; rfl
  · unfold cam_stream_task
    rw [for_ever_one, for_ever_one, loop_body_some _ _ _ rfl, loop_body_some _ _ _ rfl]

theorem loop_body_with_uart (w : World) (u : Nat → Int) (s : State) :
    (loop_body (with_uart w u) s).1 = (loop_body w s).1
    ∧ (loop_body (with_uart w u) s).2.1 = (loop_body w s).2.1
    ∧ (loop_body (with_uart w u) s).2.2.map forget_ret = (loop_body w s).2.2.map forget_ret := by
  cases h : w.camera s.gets with
  | none =>
    have h' : (with_uart w u).camera s.gets = none := h
    rw [loop_body_none w s h, loop_body_none _ s h']
    exact ⟨rfl, rfl, rfl⟩
  | some f =>
    have h' : (with_uart w u).camera s.gets = some f := h
    rw [loop_body_some w s f h, loop_body_some _ s f h']
    exact ⟨rfl, rfl, rfl⟩

theorem for_ever_with_uart (w : World) (u : Nat → Int) (n : Nat) :
    ∀ s, (for_ever (loop_body (with_uart w u)) n s).2.1 = (for_ever (loop_body w) n s).2.1
      ∧ (for_ever (loop_body (with_uart w u)) n s).2.2.map forget_ret =
          (for_ever (loop_body w) n s).2.2.map forget_ret := by
  induction n with
  | zero => intro s; exact ⟨rfl, rfl⟩
  | succ n ih =>
    intro s
    obtain ⟨_, h2, h3⟩ := loop_body_with_uart w u s
    rw [for_ever_loop_body_succ, for_ever_loop_body_succ]
    simp only [List.map_append, h2, h3]
    exact ⟨(ih _).1, by rw [(ih _).2]⟩

theorem wire_forget_ret (evs : List Event) : wire (evs.map forget_ret) = wire evs := by
  induction evs with
  | nil => rfl
  | cons e es ih => cases e <;> simp [wire, forget_ret, ih]

/-- C4 amended: the values returned by `uart_write_bytes` are discarded. For
any other return values the task makes the same calls with the same bytes in
the same order (all three writes of every acquired frame included), reaches
the same state and is still running: a failed write changes nothing. -/
theorem write_results_ignored (w : World) (u : Nat → Int) (fuel : Nat) (info0 : List Nat) :
    (cam_stream_task (with_uart w u) fuel info0).2.2.map forget_ret =
        (cam_stream_task w fuel info0).2.2.map forget_ret
    ∧ wire (cam_stream_task (with_uart w u) fuel info0).2.2 =
        wire (cam_stream_task w fuel info0).2.2
    ∧ (cam_stream_task (with_uart w u) fuel info0).2.1 = (cam_stream_task w fuel info0).2.1
    ∧ (cam_stream_task (with_uart w u) fuel info0).1 = Status.running
    ∧ (cam_stream_task w fuel info0).1 = Status.running
    ∧ (∀ (s : State) (f : camera_fb_t), w.camera s.gets = some f →
        (loop_body (with_uart w u) s).2.2 = send_events (with_uart w u) s.writes f) := by
  obtain ⟨h1, h2⟩ := for_ever_with_uart w u fuel { info := info0, gets := 0, writes := 0 }
  refine ⟨h2, ?_, h1, for_ever_running _ _ _, for_ever_running _ _ _, ?_⟩
  · have := congrArg wire h2
    rwa [wire_forget_ret, wire_forget_ret] at this
  · intro s f hf
    have h' : (with_uart w u).camera s.gets = some f := hf
    rw [loop_body_some _ s f h']
    rfl

/-- The bound on the length in the next theorem is needed: read as `int`, the
length `2^31` is negative and `%d` prints a minus sign. -/
theorem length_bound_needed :
    toInt32 (2 ^ 31) = -2147483648 ∧ fmt_d (toInt32 (2 ^ 31)) = bytes "-2147483648" := by
  decide

/-- C8: the bytes an iteration sends for any frame, whatever its payload and
length, begin and end with `DELIM`; `DELIM` matches at offset 0 and at the
offset just after the header text, and at no offset in between (no match
starts inside the first delimiter or inside the header text), so the header
text `Content-Type: image/jpeg\r\nContent-Length: <n>\r\n\r\n` is exactly the
bytes between the first two matches. -/
theorem envelope_delimiters (w : World) (s : State) (f : camera_fb_t)
    (hf : w.camera s.gets = some f) :
    wire (loop_body w s).2.2 = envelope f
    ∧ DELIM <+: envelope f ∧ DELIM <:+ envelope f
    ∧ first_occurrence DELIM (envelope f) = some 0
    ∧ occurs_at DELIM (envelope f) 0
    ∧ occurs_at DELIM (envelope f) (30 + (header_text (toInt32 f.len)).length)
    ∧ (∀ i, 0 < i → i < 30 + (header_text (toInt32 f.len)).length →
        ¬ occurs_at DELIM (envelope f) i)
    ∧ ((envelope f).drop 30).take (header_text (toInt32 f.len)).length =
        header_text (toInt32 f.len)
    ∧ header_text (toInt32 f.len) =
        bytes "Content-Type: image/jpeg\r\nContent-Length: " ++ fmt_d (toInt32 f.len)
          ++ bytes "\r\n\r\n" := by
  have hpre : DELIM <+: envelope f := by
    unfold envelope
    simp only [List.append_assoc]
    exact List.prefix_append _ _
  have hdrop : (envelope f).drop 30 =
      header_text (toInt32 f.len) ++ (DELIM ++ f.buf.take f.len ++ DELIM) := by
    unfold envelope
    simp only [List.append_assoc]
    exact List.drop_left' DELIM_length
  refine ⟨wire_loop_body_some w s f hf, hpre, ?_, first_occurrence_at_start _ _ hpre,
    by simpa [occurs_at] using hpre, ?_, ?_, ?_, rfl⟩
  · unfold envelope
    exact List.suffix_append _ _
  · unfold occurs_at
    rw [← List.drop_drop, hdrop, List.drop_left]
    simp only [List.append_assoc]
    exact List.prefix_append _ _
  · intro i h0 hi
    unfold occurs_at
    rw [envelope_split]
    exact no_delim_inside _ _ i h0 hi
  · rw [hdrop, List.take_left]

/-- Witness for C8: the envelope of a two-byte frame. -/
theorem envelope_delimiters_witness :
    (steady_world (frame_of [10, 49]) 0).camera (initial_state []).gets = some (frame_of [10, 49])
    ∧ first_occurrence DELIM (envelope (frame_of [10, 49])) = some 0
    ∧ (∀ i, 0 < i → i < 30 + (header_text (toInt32 (frame_of [10, 49]).len)).length →
        ¬ occurs_at DELIM (envelope (frame_of [10, 49])) i) :=
  ⟨rfl,
    (envelope_delimiters (steady_world (frame_of [10, 49]) 0) (initial_state [])
      (frame_of [10, 49]) rfl).2.2.2.1,
    (envelope_delimiters (steady_world (frame_of [10, 49]) 0) (initial_state [])
      (frame_of [10, 49]) rfl).2.2.2.2.2.2.1⟩


/-- C9 as stated fails: the payload `\n12345678900STREAM00987654321` (the
delimiter without its last byte) does not contain `DELIM`, yet in the payload
followed by `DELIM` the first match starts at offset 0, not at offset 29, and
a reader scanning for the next `DELIM` recovers the empty payload. -/
theorem delim_border_counterexample :
    ¬ (DELIM <:+: bytes "\n12345678900STREAM00987654321")
    ∧ (bytes "\n12345678900STREAM00987654321").length = 29
    ∧ first_occurrence DELIM (bytes "\n12345678900STREAM00987654321" ++ DELIM) = some 0
    ∧ (first_occurrence DELIM (bytes "\n12345678900STREAM00987654321" ++ DELIM)).map
        (fun k => (bytes "\n12345678900STREAM00987654321" ++ DELIM).take k) = some [] := by
  decide

/-- C9 amended: for a payload `P` that neither contains `DELIM` nor ends with
the first 29 bytes of `DELIM`, the first match of `DELIM` in `P ++ DELIM`
starts at offset `len P`, so the bytes before it are exactly `P`. -/
theorem delim_first_after_payload (P : List Nat) (h1 : ¬ DELIM <:+: P)
    (h2 : ¬ (bytes "\n12345678900STREAM00987654321" <:+ P)) :
    first_occurrence DELIM (P ++ DELIM) = some P.length
    ∧ occurs_at DELIM (P ++ DELIM) P.length
    ∧ (∀ i, i < P.length → ¬ occurs_at DELIM (P ++ DELIM) i)
    ∧ (first_occurrence DELIM (P ++ DELIM)).map (fun k => (P ++ DELIM).take k) = some P := by
  have hocc : DELIM <+: (P ++ DELIM).drop P.length := by
    rw [List.drop_left]
  have hno := no_delim_before_end P h1 h2
  have hfirst := first_occurrence_eq DELIM _ _ (by simp) hocc hno
  refine ⟨hfirst, hocc, hno, ?_⟩
  rw [hfirst, Option.map_some', List.take_left]

/-- Witness for C9 amended: a payload with a line feed and a `1` inside. -/
theorem delim_first_after_payload_witness :
    ¬ (DELIM <:+: [255, 216, 10, 49, 50, 255, 217])
    ∧ ¬ (bytes "\n12345678900STREAM00987654321" <:+ [255, 216, 10, 49, 50, 255, 217])
    ∧ first_occurrence DELIM ([255, 216, 10, 49, 50, 255, 217] ++ DELIM) = some 7 :=
  ⟨by decide, by decide,
    (delim_first_after_payload [255, 216, 10, 49, 50, 255, 217] (by decide) (by decide)).1⟩


end CamStream
